import Mathlib

/-!
Verification development for the lsp-mcp-rs repository, a bridge between a
tool-calling front end and LSP backends speaking Content-Length framed JSON
over stdio.  The Rust sources under src/ are shallowly embedded here:

* src/framed_stdio.rs  — byte-level framing codec (read_message_sync,
  write_message_sync); streams are modelled as lists of bytes (Nat < 256);
* src/client.rs        — the LSP client: pending-request correlation table,
  identifier allocation (AtomicI64, wraps on overflow), send_request with its
  fixed 30 second timeout, the background reader loop, the initialization
  handshake, and project-root discovery;
* src/config.rs        — ServerConfig and extension-based backend lookup;
* src/main.rs          — the pool manager (LspManager::get_client).

src/protocol.rs (JsonRpcRequest, JsonRpcResponse, encode_message) is declared
via mod protocol but absent from src/; the response envelope is modelled from
the specification where needed.
-/

set_option linter.unusedVariables false



/-- Bytes of an ASCII string literal (all our literals are ASCII). -/
def strBytes (s : String) : List Nat := s.toList.map Char.toNat

/-- ASCII decimal digit test, bytes 48..57. -/
def isDigitB (b : Nat) : Bool := 48 ≤ b && b ≤ 57

/-- ASCII fragment of str::to_lowercase; the header comparison in the source
only involves ASCII bytes. -/
def asciiLower (b : Nat) : Nat := if 65 ≤ b && b ≤ 90 then b + 32 else b

def lowerBytes (l : List Nat) : List Nat := l.map asciiLower

/-- ASCII fragment of char::is_whitespace, used by str::trim in the source.
The header values trimmed in the source are ASCII. -/
def isAsciiWs (b : Nat) : Bool := b = 32 || b = 9 || b = 10 || b = 11 || b = 12 || b = 13

/-- BufRead::read_line on a byte stream: none on end of stream with nothing
read, otherwise the line up to and including the first 0x0A byte (or the whole
remainder if the stream ends first) together with the rest of the stream. -/
def readLineBytes : List Nat → Option (List Nat × List Nat)
  | [] => none
  | b :: rest =>
    if b = 10 then some ([10], rest)
    else
      match readLineBytes rest with
      | none => some ([b], [])
      | some (line, rem) => some (b :: line, rem)

/-- UTF-8 continuation byte, 0x80..0xBF. -/
def isContB (b : Nat) : Bool := 128 ≤ b && b ≤ 191

/-- DFA for exact UTF-8 validity: need is the number of continuation bytes
still expected for the current character, and lo..hi the admissible range of
the next byte (the first continuation byte of a multi-byte character has a
restricted range that excludes overlong forms, surrogates and values above
U+10FFFF; later continuation bytes are 0x80..0xBF).  The leading-byte table
matches the validation of core::str (C2..DF, E0 A0..BF, E1..EC, ED 80..9F,
EE..EF, F0 90..BF, F1..F3, F4 80..8F). -/
def utf8Aux (need lo hi : Nat) : List Nat → Bool
  | [] => need == 0
  | c :: r =>
    if need = 0 then
      if c ≤ 127 then utf8Aux 0 0 0 r
      else if 194 ≤ c && c ≤ 223 then utf8Aux 1 128 191 r
      else if c = 224 then utf8Aux 2 160 191 r
      else if 225 ≤ c && c ≤ 236 then utf8Aux 2 128 191 r
      else if c = 237 then utf8Aux 2 128 159 r
      else if 238 ≤ c && c ≤ 239 then utf8Aux 2 128 191 r
      else if c = 240 then utf8Aux 3 144 191 r
      else if 241 ≤ c && c ≤ 243 then utf8Aux 3 128 191 r
      else if c = 244 then utf8Aux 3 128 143 r
      else false
    else if lo ≤ c && c ≤ hi then utf8Aux (need - 1) 128 191 r
    else false

/-- Exact UTF-8 validity of a byte sequence, as enforced by
String::from_utf8 and BufRead::read_line in the source. -/
def validUtf8 (l : List Nat) : Bool := utf8Aux 0 0 0 l

/-- trim_end_matches of carriage returns and newlines, as applied to header
lines in read_message_sync. -/
def trimEndCrLf (l : List Nat) : List Nat :=
  (l.reverse.dropWhile (fun b => b = 13 || b = 10)).reverse

/-- str::trim on both ends (ASCII whitespace fragment). -/
def trimWs (l : List Nat) : List Nat :=
  ((l.dropWhile isAsciiWs).reverse.dropWhile isAsciiWs).reverse

/-- str::split on the colon byte. -/
def splitOn58 : List Nat → List (List Nat)
  | [] => [[]]
  | b :: r =>
    let rest := splitOn58 r
    if b = 58 then [] :: rest
    else
      match rest with
      | [] => [[b]]
      | x :: xs => (b :: x) :: xs

/-- str::parse::<usize> — optional leading plus sign, then decimal digits,
none if empty or out of the 64-bit range. -/
def parseUsize (l : List Nat) : Option Nat :=
  let ds :=
    match l with
    | b :: r => if b = 43 then r else l
    | [] => l
  if ds.isEmpty then none
  else if ds.all isDigitB then
    let v := ds.foldl (fun a b => a * 10 + (b - 48)) 0
    if v < 2 ^ 64 then some v else none
  else none

/-- Decimal rendering of a Nat, most significant digit first, as produced by
the Display formatting of msg.len() in write_message_sync. -/
def natDigits (n : Nat) : List Nat :=
  if n = 0 then [48] else ((Nat.digits 10 n).map (fun d => d + 48)).reverse

/-- Error kinds of std::io as distinguished by the source: InvalidData from
String::from_utf8 and read_line, UnexpectedEof from read_exact. -/
inductive IoErr where
  | invalidData
  | unexpectedEof
  deriving DecidableEq

/-- Header accumulator update of read_message_sync: a line whose lowercase
form starts with the length-field name replaces the accumulator with the
parse of the text after the colon (even when that parse fails); any other
line leaves it unchanged. -/
def fsUpdAcc (t : List Nat) (acc : Option Nat) : Option Nat :=
  if (strBytes "content-length:").isPrefixOf (lowerBytes t) then
    ((splitOn58 t).get? 1).bind (fun seg => parseUsize (trimWs seg))
  else acc

/-- Fueled header loop of read_message_sync.  The fuel only bounds the
number of header lines; readHeaders passes one more than the stream length,
which is always sufficient because every line consumes at least one byte
(readHeaders_eq proves the fuel-free recurrence). -/
def readHeadersF : Nat → List Nat → Option Nat → Except IoErr (Option (Option Nat × List Nat))
  | 0, _, _ => .error .unexpectedEof
  | fuel + 1, s, acc =>
    match readLineBytes s with
    | none => .ok none
    | some (line, rest) =>
      if validUtf8 line then
        let t := trimEndCrLf line
        if t.isEmpty then .ok (some (acc, rest))
        else readHeadersF fuel rest (fsUpdAcc t acc)
      else .error .invalidData

/-- Header loop of read_message_sync: returns the final content-length
accumulator and the unconsumed stream, ok none on end of stream before a
line, or an error when read_line hits invalid UTF-8. -/
def readHeaders (s : List Nat) (acc : Option Nat) : Except IoErr (Option (Option Nat × List Nat)) :=
  readHeadersF (s.length + 1) s acc

/-- Read::read_exact n bytes: error if the stream is shorter. -/
def readExact (n : Nat) (s : List Nat) : Option (List Nat × List Nat) :=
  if s.length < n then none else some (s.take n, s.drop n)

/-- read_message_sync of src/framed_stdio.rs on a byte stream.  The second
component of a successful read is the unconsumed remainder of the stream
(left on stdin by the source function). -/
def readMessageSync (s : List Nat) : Except IoErr (Option (List Nat × List Nat)) :=
  match readHeaders s none with
  | .error e => .error e
  | .ok none => .ok none
  | .ok (some (none, _)) => .ok none
  | .ok (some (some len, rest)) =>
    match readExact len rest with
    | none => .error .unexpectedEof
    | some (body, rest2) =>
      if validUtf8 body then .ok (some (body, rest2)) else .error .invalidData

/-- write_message_sync of src/framed_stdio.rs: the bytes put on the stream
for a message body (a Rust &str, hence a valid UTF-8 byte sequence). -/
def writeMessageSync (msg : List Nat) : List Nat :=
  strBytes "Content-Length: " ++ natDigits msg.length ++ [13, 10, 13, 10] ++ msg

/-! ## JSON envelope (src/protocol.rs is absent from src/; modelled from the spec) -/

/-- A JSON value, for the result and error payloads of a response. -/
inductive Json where
  | null
  | bool (b : Bool)
  | num (n : Int)
  | str (s : String)
  | arr (xs : List Json)
  | obj (fs : List (String × Json))

/-- Modelled from the spec: the response envelope of the absent
src/protocol.rs — {jsonrpc, id: integer matching a pending request,
result present on success, error present on failure}; client.rs reads
response.id as an Option and tests response.error.is_some(). -/
structure JsonRpcResponse where
  id : Option Int
  result : Option Json
  error : Option Json

/-! ## Correlation table (src/client.rs, pending: HashMap<i64, oneshot::Sender>) -/

/-- The pending table: identifier paired with whether the oneshot receiver of
that entry is still alive (true until the awaiting caller times out and drops
its receiver). -/
abbrev PendingTable := List (Int × Bool)

def keysOf (t : PendingTable) : List Int := t.map Prod.fst

/-- HashMap::insert — replaces the value when the key is present, otherwise
adds the binding. -/
def tableInsert (id : Int) (alive : Bool) (t : PendingTable) : PendingTable :=
  if t.any (fun e => e.1 == id) then
    t.map (fun e => if e.1 == id then (id, alive) else e)
  else t ++ [(id, alive)]

/-- HashMap::remove. -/
def tableRemove (id : Int) (t : PendingTable) : PendingTable :=
  t.filter (fun e => !(e.1 == id))

def lookupTable (id : Int) (t : PendingTable) : Option Bool :=
  (t.find? (fun e => e.1 == id)).map Prod.snd

/-- Dropping the oneshot receiver of an entry (what tokio::time::timeout does
to rx when the wait elapses): the entry stays in the table, its slot is dead. -/
def markDead (id : Int) (t : PendingTable) : PendingTable :=
  t.map (fun e => if e.1 == id then (e.1, false) else e)

/-- Reader-task delivery, src/client.rs lines 94-99: pending.remove(&id)
followed by tx.send(response).  Returns the table afterwards and whether the
response reached a live caller (tx.send succeeds only if the receiver is
alive). -/
def deliverById (id : Int) (t : PendingTable) : PendingTable × Bool :=
  match t.find? (fun e => e.1 == id) with
  | some e => (tableRemove id t, e.2)
  | none => (t, false)

/-! ## Identifier allocation (next_id: AtomicI64, fetch_add wraps on overflow) -/

/-- Wrapping of an integer into the i64 range, the overflow behaviour of
AtomicI64::fetch_add. -/
def wrapI64 (x : Int) : Int := ((x + 2 ^ 63) % 2 ^ 64) - 2 ^ 63

/-- The identifier returned by the k-th allocation (0-based) on one client:
the counter starts at 1 (AtomicI64::new(1)) and each fetch_add(1) returns the
current value and wraps the increment. -/
def nthId : Nat → Int
  | 0 => 1
  | k + 1 => wrapI64 (nthId k + 1)

/-! ## Client state and send_request (src/client.rs) -/

/-- The timeout of send_request: Duration::from_secs(30), a constant of the
code independent of any ServerConfig. -/
def requestTimeoutMs : Nat := 30000

inductive LspError where
  | notRunning        -- bail "LSP not running"
  | writeFailed       -- propagated stdin write or flush error
  | requestTimedOut   -- context "LSP request timed out"
  | initializeFailed  -- bail "Initialize failed"
  | fileReadFailed    -- propagated tokio::fs::read_to_string error
  deriving DecidableEq

/-- A message put on the backend stdin, identified by its envelope kind and
method (the payload bytes are not inspected by any property below). -/
inductive Msg where
  | req (id : Int) (method : String)
  | notif (method : String)
  deriving DecidableEq

def isReqMsg : Msg → Bool
  | .req _ _ => true
  | .notif _ => false

def msgMethod : Msg → String
  | .req _ m => m
  | .notif m => m

/-- Outcome of one awaited request, the environment of the concurrent reader
task: either no response ever arrives for that identifier, or one arrives t
milliseconds after the send. -/
inductive ROutcome where
  | noArrival
  | arrival (t : Nat) (rsp : JsonRpcResponse)

/-- External behaviour surrounding one client: whether stdin writes succeed,
what response (if any) the backend produces per request identifier, and
whether tokio::fs::read_to_string succeeds in open_file. -/
structure SendEnv where
  writeOk : Bool
  outcome : Int → ROutcome
  readFileOk : Bool

/-- Protocol client state, the fields of struct LspClient: pending table,
next identifier, initialized flag, stdin present (write half), process
present, discovered root. -/
structure ClientState where
  pending : PendingTable
  nextId : Int
  initialized : Bool
  stdinOpen : Bool
  processRunning : Bool
  rootUri : Option (List String)

/-- send_request of src/client.rs (lines 110-132) together with the effect of
the reader task on the pending table for this request.  Returns the result,
the state immediately after the call returns, and the trace of messages
written to the backend, each tagged with the initialized flag at the moment
of the write.  Control flow from the source: allocate id (fetch_add), insert
the oneshot sender into pending, then — with nothing ever removing that
insertion on the error paths — bail if stdin is absent, propagate a write
failure, await with the fixed 30 second timeout.  A response arriving within
the timeout has been removed from pending and delivered by the reader; on
timeout the receiver is dropped (entry marked dead) and the entry stays. -/
def sendRequest (st : ClientState) (env : SendEnv) (method : String) :
    (Except LspError JsonRpcResponse) × ClientState × List (Msg × Bool) :=
  let id := st.nextId
  let st1 : ClientState :=
    { st with nextId := wrapI64 (st.nextId + 1), pending := tableInsert id true st.pending }
  if !st.stdinOpen then (.error .notRunning, st1, [])
  else if !env.writeOk then (.error .writeFailed, st1, [(.req id method, st.initialized)])
  else
    match env.outcome id with
    | .noArrival =>
        (.error .requestTimedOut,
         { st1 with pending := markDead id st1.pending },
         [(.req id method, st.initialized)])
    | .arrival t rsp =>
        if t < requestTimeoutMs then
          (.ok rsp,
           { st1 with pending := (deliverById id st1.pending).1 },
           [(.req id method, st.initialized)])
        else
          (.error .requestTimedOut,
           { st1 with pending := markDead id st1.pending },
           [(.req id method, st.initialized)])

/-- send_notification of src/client.rs (lines 134-144): writes the framed
notification if stdin is present, silently succeeds otherwise. -/
def sendNotify (st : ClientState) (env : SendEnv) (method : String) :
    ClientState × List (Msg × Bool) :=
  if st.stdinOpen then (st, [(.notif method, st.initialized)]) else (st, [])

/-! ## Background reader loop (src/client.rs lines 57-101) -/

/-- Header accumulator update of the reader task (src/client.rs lines 72-77):
the untrimmed line is lowercased for the comparison and split on the colon;
str::trim inside the parse removes the trailing CRLF. -/
def rdrUpdAcc (line : List Nat) (acc : Option Nat) : Option Nat :=
  if (strBytes "content-length:").isPrefixOf (lowerBytes line) then
    ((splitOn58 line).get? 1).bind (fun seg => parseUsize (trimWs seg))
  else acc

/-- Fueled header loop of the reader task.  none models the return of the
task: read_line reporting end of stream or an error (unwrap_or(0) treats
both alike); the end of headers is the exact comparison line == CRLF or
line == LF.  readerHeaders passes fuel that is always sufficient
(readerHeaders_eq proves the fuel-free recurrence). -/
def readerHeadersF : Nat → List Nat → Option Nat → Option (Option Nat × List Nat)
  | 0, _, _ => none
  | fuel + 1, s, acc =>
    match readLineBytes s with
    | none => none
    | some (line, rest) =>
      if validUtf8 line then
        if line = [13, 10] ∨ line = [10] then some (acc, rest)
        else readerHeadersF fuel rest (rdrUpdAcc line acc)
      else none

def readerHeaders (s : List Nat) (acc : Option Nat) : Option (Option Nat × List Nat) :=
  readerHeadersF (s.length + 1) s acc

/-- Why one iteration of the reader loop ended the task. -/
inductive ReaderExit where
  | headerEofOrError   -- read_line returned 0 bytes or failed
  | bodyShortRead      -- read_exact failed before the declared length
  deriving DecidableEq

/-- Result of one iteration of the reader loop: either the task returns, or
the loop continues with the remaining stream, the updated pending table, and
the identifier delivered (with whether a live caller received it), if any. -/
inductive ReaderStepRes where
  | exit (e : ReaderExit)
  | step (rest : List Nat) (t : PendingTable) (delivered : Option (Int × Bool))

/-- One iteration of the reader loop of src/client.rs (lines 60-99), with the
deserialization of the body (serde_json::from_slice::<JsonRpcResponse>, an
external collaborator over the absent protocol.rs type) abstracted as the
decode parameter: headers without a recognized length continue with the next
frame; a body that fails to decode, or decodes without an id, is discarded;
a decoded id is matched against pending by deliverById. -/
def readerStep (decode : List Nat → Option JsonRpcResponse)
    (s : List Nat) (t : PendingTable) : ReaderStepRes :=
  match readerHeaders s none with
  | none => .exit .headerEofOrError
  | some (none, rest) => .step rest t none
  | some (some len, rest) =>
    match readExact len rest with
    | none => .exit .bodyShortRead
    | some (body, rest2) =>
      match decode body with
      | none => .step rest2 t none
      | some rsp =>
        match rsp.id with
        | none => .step rest2 t none
        | some id =>
          let d := deliverById id t
          .step rest2 d.1 (some (id, d.2))

/-! ## Root discovery (src/client.rs, find_project_root) -/

/-- The fixed marker set of find_project_root. -/
def markers : List String :=
  [".git", "Cargo.toml", "package.json", "pyproject.toml", "go.mod",
   ".luarc.json", "compile_commands.json"]

/-- A filesystem is the list of existing absolute paths; a path is its list
of segments from the root (the root directory itself is []). -/
abbrev FsModel := List (List String)

/-- current.join(marker).exists() for any of the markers. -/
def hasMarker (fs : FsModel) (dir : List String) : Bool :=
  markers.any (fun m => fs.contains (dir ++ [m]))

/-- Path::parent — none for the root directory. -/
def parentDir : List String → Option (List String)
  | [] => none
  | p => some p.dropLast

/-- The upward walk of find_project_root, written structurally on the
reversed segment list (current.parent() is the tail of the reversed path):
check the markers at the current directory, then move to the parent, giving
up when the parent of the root is requested. -/
def findRootFromRev (fs : FsModel) : List String → Option (List String)
  | [] => if hasMarker fs [] then some [] else none
  | x :: r =>
    if hasMarker fs ((x :: r).reverse) then some ((x :: r).reverse)
    else findRootFromRev fs r

/-- find_project_root of src/client.rs: starts at path.parent() (none when
there is no parent) and walks upward. -/
def findProjectRoot (fs : FsModel) (p : List String) : Option (List String) :=
  match parentDir p with
  | none => none
  | some d => findRootFromRev fs d.reverse

/-- All directories the walk visits, nearest first: the start directory, its
parent, and so on down to the filesystem root. -/
def upChain (d : List String) : List (List String) :=
  d.reverse.tails.map List.reverse

/-- The root used by ensure_initialized (src/client.rs lines 193-198):
the discovered project root, or the parent of the file (the filesystem root
when the file has no parent). -/
def rootFor (fs : FsModel) (p : List String) : List String :=
  (findProjectRoot fs p).getD ((parentDir p).getD [])

/-! ## Configuration and pool manager (src/config.rs, src/main.rs) -/

/-- ASCII fragment of String::to_lowercase, applied to extension strings. -/
def lowerStr (s : String) : String :=
  String.mk (s.toList.map (fun c => if 65 ≤ c.toNat && c.toNat ≤ 90 then Char.ofNat (c.toNat + 32) else c))

/-- ServerConfig of src/config.rs. -/
structure ServerConfig where
  command : String
  args : List String
  extensions : List String
  rootPatterns : List String
  timeoutMs : Nat
  deriving DecidableEq

/-- Config of src/config.rs; the servers HashMap is modelled as an
association list (its iteration order is unspecified in the source). -/
structure Config where
  servers : List (String × ServerConfig)
  deriving DecidableEq

/-- Config::server_for_extension: the first configured backend one of whose
extensions equals the queried extension case-insensitively. -/
def serverForExtension (c : Config) (ext : String) : Option (String × ServerConfig) :=
  c.servers.find? (fun nc => nc.2.extensions.any (fun e => lowerStr e == lowerStr ext))

/-- Path::extension on the final segment of a path, Rust semantics: the part
after the last dot of the file name, none when there is no dot or the only
dot is leading. -/
def extensionOf (p : List String) : Option (List Char) :=
  match p.getLast? with
  | none => none
  | some name =>
    let cs := name.toList
    let afterDot := (cs.reverse.takeWhile (fun c => c ≠ '.')).reverse
    if afterDot.length = cs.length then none          -- no dot at all
    else if afterDot.length + 1 = cs.length then none -- the only dot is leading
    else some afterDot

/-- LspManager::server_for_file (src/main.rs lines 76-82): extract the
extension, prepend a dot, and look it up. -/
def serverForFile (cfg : Config) (p : List String) : Option (String × ServerConfig) :=
  match extensionOf p with
  | none => none
  | some ext => serverForExtension cfg (String.mk ('.' :: ext))

inductive MgrError where
  | noBackendConfigured   -- anyhow "No LSP configured for ..."
  | spawnFailed           -- propagated LspClient::start failure
  deriving DecidableEq

/-- The extension of p matches no configured backend (including the case of a
path with no extractable extension) — the hypothesis of the unknown-extension
scenario, decidable so a witness can discharge it by evaluation. -/
def matchesNoBackend (cfg : Config) (p : List String) : Bool :=
  match extensionOf p with
  | none => true
  | some ext =>
    cfg.servers.all (fun nc =>
      nc.2.extensions.all (fun e => !(lowerStr e == lowerStr (String.mk ('.' :: ext)))))

/-- LspManager::get_client (src/main.rs lines 84-99): resolve the backend,
reuse a cached client, otherwise spawn (client.start) and cache.  Returns the
result (the client is identified by its backend name), the cache afterwards,
and the commands of the processes spawned by this call. -/
def getClient (cfg : Config) (clients : List String) (p : List String) (spawnOk : Bool) :
    (Except MgrError String) × List String × List String :=
  match serverForFile cfg p with
  | none => (.error .noBackendConfigured, clients, [])
  | some (name, sc) =>
    if clients.contains name then (.ok name, clients, [])
    else if spawnOk then (.ok name, clients ++ [name], [sc.command])
    else (.error .spawnFailed, clients, [])

/-! ## Handshake and typed operations (src/client.rs lines 146-367) -/

/-- LspClient::initialize (lines 146-185): record the root, send the
initialize request, fail if it errors, send the initialized notification and
set the flag. -/
def initializeTr (st : ClientState) (env : SendEnv) (root : List String) :
    (Except LspError Unit) × ClientState × List (Msg × Bool) :=
  let st0 := { st with rootUri := some root }
  match sendRequest st0 env "initialize" with
  | (.error e, st1, tr1) => (.error e, st1, tr1)
  | (.ok rsp, st1, tr1) =>
    if rsp.error.isSome then (.error .initializeFailed, st1, tr1)
    else
      let n := sendNotify st1 env "initialized"
      (.ok (), { n.1 with initialized := true }, tr1 ++ n.2)

/-- LspClient::ensure_initialized (lines 187-201): skip when initialized,
otherwise discover the root (falling back to the parent of the file) and
initialize. -/
def ensureInitializedTr (st : ClientState) (env : SendEnv) (fs : FsModel) (p : List String) :
    (Except LspError Unit) × ClientState × List (Msg × Bool) :=
  if st.initialized then (.ok (), st, [])
  else initializeTr st env (rootFor fs p)

/-- LspClient::open_file (lines 203-224): read the file (an error
propagates), then send the didOpen notification. -/
def openFileTr (st : ClientState) (env : SendEnv) (p : List String) :
    (Except LspError Unit) × ClientState × List (Msg × Bool) :=
  if env.readFileOk then
    let n := sendNotify st env "textDocument/didOpen"
    (.ok (), n.1, n.2)
  else (.error .fileReadFailed, st, [])

/-- Common shape of the four request-bearing typed operations (hover,
definition, references, documentSymbols; lines 226-346): ensure initialized,
open the file, then send the positioned or document-addressed request.  The
operations differ only in the method string and in how the result payload is
deserialized, which no property below inspects. -/
def requestOpTr (method : String) (st : ClientState) (env : SendEnv)
    (fs : FsModel) (p : List String) :
    (Except LspError JsonRpcResponse) × ClientState × List (Msg × Bool) :=
  match ensureInitializedTr st env fs p with
  | (.error e, st1, tr1) => (.error e, st1, tr1)
  | (.ok _, st1, tr1) =>
    match openFileTr st1 env p with
    | (.error e, st2, tr2) => (.error e, st2, tr1 ++ tr2)
    | (.ok _, st2, tr2) =>
      match sendRequest st2 env method with
      | (r, st3, tr3) => (r, st3, tr1 ++ tr2 ++ tr3)

def hoverTr (st : ClientState) (env : SendEnv) (fs : FsModel) (p : List String) :=
  requestOpTr "textDocument/hover" st env fs p

def definitionTr (st : ClientState) (env : SendEnv) (fs : FsModel) (p : List String) :=
  requestOpTr "textDocument/definition" st env fs p

def referencesTr (st : ClientState) (env : SendEnv) (fs : FsModel) (p : List String) :=
  requestOpTr "textDocument/references" st env fs p

def documentSymbolsTr (st : ClientState) (env : SendEnv) (fs : FsModel) (p : List String) :=
  requestOpTr "textDocument/documentSymbol" st env fs p

/-- LspClient::diagnostics (lines 348-355): ensure initialized, open the
file, return the empty list without sending any request. -/
def diagnosticsTr (st : ClientState) (env : SendEnv) (fs : FsModel) (p : List String) :
    (Except LspError (List Json)) × ClientState × List (Msg × Bool) :=
  match ensureInitializedTr st env fs p with
  | (.error e, st1, tr1) => (.error e, st1, tr1)
  | (.ok _, st1, tr1) =>
    match openFileTr st1 env p with
    | (.error e, st2, tr2) => (.error e, st2, tr1 ++ tr2)
    | (.ok _, st2, tr2) => (.ok [], st2, tr1 ++ tr2)

/-- LspClient::shutdown (lines 357-367): best-effort shutdown request
(result ignored, state effects kept), best-effort exit notification, kill the
process, clear the initialized flag. -/
def shutdownTr (st : ClientState) (env : SendEnv) :
    ClientState × List (Msg × Bool) :=
  match sendRequest st env "shutdown" with
  | (_, st1, tr1) =>
    let n := sendNotify st1 env "exit"
    ({ n.1 with processRunning := false, initialized := false }, tr1 ++ n.2)

/-! ## Helper lemmas: byte classes -/

theorem digit_bounds {b : Nat} (h : isDigitB b = true) : 48 ≤ b ∧ b ≤ 57 := by
  simpa [isDigitB] using h

theorem ws_false_of_digit {b : Nat} (h : isDigitB b = true) : isAsciiWs b = false := by
  have hb := digit_bounds h
  simp only [isAsciiWs, Bool.or_eq_false_iff, decide_eq_false_iff_not]
  omega

theorem asciiLower_digit {b : Nat} (h : isDigitB b = true) : asciiLower b = b := by
  have hb := digit_bounds h
  unfold asciiLower
  rw [if_neg]
  simp only [Bool.and_eq_true, decide_eq_true_eq]
  omega

/-! ## Helper lemmas: line reading -/

theorem readLineBytes_shrink : ∀ {s line rest : List Nat},
    readLineBytes s = some (line, rest) → rest.length < s.length := by
  intro s
  induction s with
  | nil => intro line rest h; simp [readLineBytes] at h
  | cons b tl ih =>
    intro line rest h
    by_cases hb : b = 10
    · simp [readLineBytes, hb] at h
      rw [← h.2]
      simp
    · simp only [readLineBytes, if_neg hb] at h
      cases htl : readLineBytes tl with
      | none =>
        rw [htl] at h
        simp at h
        rw [h.2]
        simp
      | some lr =>
        rw [htl] at h
        cases lr with
        | mk l2 r2 =>
          simp at h
          have := ih htl
          rw [← h.2]
          simp
          omega

theorem readLineBytes_append {l : List Nat} (rest : List Nat) (hl : 10 ∉ l) :
    readLineBytes (l ++ 10 :: rest) = some (l ++ [10], rest) := by
  induction l with
  | nil => simp [readLineBytes]
  | cons b tl ih =>
    have hb : b ≠ 10 := by intro hb; exact hl (by simp [hb])
    have htl : 10 ∉ tl := fun h => hl (by simp [h])
    simp only [List.cons_append, readLineBytes]
    rw [if_neg hb, List.append_eq, ih htl]

/-! ## Helper lemmas: UTF-8 over ASCII -/

theorem validUtf8_ascii : ∀ {l : List Nat}, (∀ b ∈ l, b < 128) → validUtf8 l = true := by
  intro l
  induction l with
  | nil => intro _; rfl
  | cons b tl ih =>
    intro h
    have hb : b ≤ 127 := by have := h b (by simp); omega
    show utf8Aux 0 0 0 (b :: tl) = true
    rw [utf8Aux.eq_2, if_pos rfl, if_pos hb]
    exact ih (fun x hx => h x (by simp [hx]))

/-! ## Helper lemmas: decimal digits -/

theorem natDigits_all_digit (n : Nat) : ∀ b ∈ natDigits n, isDigitB b = true := by
  intro b hb
  by_cases hn : n = 0
  · simp [natDigits, hn] at hb; simp [hb, isDigitB]
  · simp only [natDigits, if_neg hn, List.mem_reverse, List.mem_map] at hb
    obtain ⟨d, hd, rfl⟩ := hb
    have : d < 10 := Nat.digits_lt_base (by norm_num) hd
    simp [isDigitB]
    omega

theorem natDigits_ne_nil (n : Nat) : natDigits n ≠ [] := by
  by_cases hn : n = 0
  · simp [natDigits, hn]
  · simp only [natDigits, if_neg hn]
    simp [Nat.digits_ne_nil_iff_ne_zero.mpr hn]

theorem foldr_eq_ofDigits : ∀ L : List Nat,
    L.foldr (fun d a => a * 10 + d) 0 = Nat.ofDigits 10 L := by
  intro L
  induction L with
  | nil => simp [Nat.ofDigits]
  | cons d tl ih => simp [Nat.ofDigits, ih]; ring

theorem foldl_natDigits (n : Nat) :
    (natDigits n).foldl (fun a b => a * 10 + (b - 48)) 0 = n := by
  by_cases hn : n = 0
  · simp [natDigits, hn]
  · simp only [natDigits, if_neg hn]
    rw [← List.map_reverse, List.foldl_map]
    simp only [Nat.add_sub_cancel]
    rw [List.foldl_reverse]
    exact (foldr_eq_ofDigits _).trans (Nat.ofDigits_digits 10 n)

theorem parseUsize_natDigits {n : Nat} (h : n < 2 ^ 64) :
    parseUsize (natDigits n) = some n := by
  rcases hD : natDigits n with _ | ⟨b, r⟩
  · exact absurd hD (natDigits_ne_nil n)
  · have hb : isDigitB b = true := by
      have := natDigits_all_digit n
      rw [hD] at this
      exact this b (by simp)
    have hb43 : b ≠ 43 := by
      have := digit_bounds hb
      omega
    have hall : (b :: r).all isDigitB = true := by
      have := natDigits_all_digit n
      rw [hD] at this
      simpa [List.all_eq_true] using this
    have hfold := foldl_natDigits n
    rw [hD] at hfold
    simp only [parseUsize, if_neg hb43, List.isEmpty_cons, hall, hfold, if_pos h]
    simp

/-! ## Helper lemmas: trimming, lowering, splitting -/

theorem trimEndCrLf_concat {l : List Nat} {b : Nat} (h13 : b ≠ 13) (h10 : b ≠ 10) :
    trimEndCrLf ((l ++ [b]) ++ [13, 10]) = l ++ [b] := by
  simp [trimEndCrLf, List.dropWhile, h13, h10]

theorem natDigits_split (n : Nat) : ∃ l b, natDigits n = l ++ [b] ∧ 48 ≤ b ∧ b ≤ 57 := by
  rcases (natDigits n).eq_nil_or_concat with h | ⟨l, b, h⟩
  · exact absurd h (natDigits_ne_nil n)
  · rw [List.concat_eq_append] at h
    refine ⟨l, b, h, ?_⟩
    have := natDigits_all_digit n b (by simp [h])
    exact digit_bounds this

theorem lowerBytes_digits {l : List Nat} (h : ∀ b ∈ l, isDigitB b = true) :
    lowerBytes l = l := by
  induction l with
  | nil => rfl
  | cons b tl ih =>
    have hb := asciiLower_digit (h b (by simp))
    have htl := ih (fun x hx => h x (by simp [hx]))
    simp only [lowerBytes, List.map_cons, hb]
    simpa [lowerBytes] using htl

theorem splitOn58_no58 {l : List Nat} (h : ∀ b ∈ l, b ≠ 58) : splitOn58 l = [l] := by
  induction l with
  | nil => rfl
  | cons b tl ih =>
    have hb : b ≠ 58 := h b (by simp)
    have htl := ih (fun x hx => h x (by simp [hx]))
    simp only [splitOn58, htl, if_neg hb]

theorem splitOn58_append {a c : List Nat} (ha : ∀ b ∈ a, b ≠ 58) (hc : ∀ b ∈ c, b ≠ 58) :
    splitOn58 (a ++ 58 :: c) = [a, c] := by
  induction a with
  | nil => simp [splitOn58, splitOn58_no58 hc]
  | cons b tl ih =>
    have hb : b ≠ 58 := ha b (by simp)
    have htl := ih (fun x hx => ha x (by simp [hx]))
    simp only [List.cons_append, splitOn58, List.append_eq]
    rw [htl]
    simp [hb]

theorem dropWhile_ws_digits {l : List Nat} (h : ∀ b ∈ l, isDigitB b = true) :
    List.dropWhile isAsciiWs l = l := by
  cases l with
  | nil => rfl
  | cons b tl =>
    have hb := ws_false_of_digit (h b (by simp))
    simp [List.dropWhile_cons, hb]

theorem trimWs_space_digits {l : List Nat} (hne : l ≠ []) (h : ∀ b ∈ l, isDigitB b = true) :
    trimWs (32 :: l) = l := by
  have h1 : List.dropWhile isAsciiWs (32 :: l) = l := by
    have : isAsciiWs 32 = true := by decide
    simp [List.dropWhile_cons, this, dropWhile_ws_digits h]
  have h2 : List.dropWhile isAsciiWs l.reverse = l.reverse := by
    apply dropWhile_ws_digits
    intro b hb
    exact h b (by simpa using hb)
  simp [trimWs, h1, h2]

/-! ## Helper lemmas: the header loop recurrence -/

theorem readHeadersF_irrel : ∀ f1 : Nat, ∀ {f2 : Nat} {s : List Nat} {acc : Option Nat},
    s.length < f1 → s.length < f2 → readHeadersF f1 s acc = readHeadersF f2 s acc := by
  intro f1
  induction f1 with
  | zero => intro f2 s acc h1 _; exact absurd h1 (by omega)
  | succ f ih =>
    intro f2 s acc h1 h2
    cases f2 with
    | zero => exact absurd h2 (by omega)
    | succ g =>
      rw [readHeadersF.eq_2, readHeadersF.eq_2]
      cases hr : readLineBytes s with
      | none => rfl
      | some lr =>
        cases lr with
        | mk line rest =>
          have hlt := readLineBytes_shrink hr
          by_cases hv : validUtf8 line = true
          · simp only [hv, if_pos]
            by_cases ht : (trimEndCrLf line).isEmpty = true
            · simp [ht]
            · simp only [Bool.not_eq_true] at ht
              simp only [ht]
              exact ih (by omega) (by omega)
          · simp only [Bool.not_eq_true] at hv
            simp [hv]

theorem readHeaders_step {s line rest : List Nat} {acc : Option Nat}
    (h : readLineBytes s = some (line, rest)) (hv : validUtf8 line = true)
    (ht : (trimEndCrLf line).isEmpty = false) :
    readHeaders s acc = readHeaders rest (fsUpdAcc (trimEndCrLf line) acc) := by
  have hlt := readLineBytes_shrink h
  unfold readHeaders
  rw [readHeadersF.eq_2, h]
  simp only [hv, if_pos, ht]
  exact readHeadersF_irrel _ (by omega) (by omega)

theorem readHeaders_blank {s line rest : List Nat} {acc : Option Nat}
    (h : readLineBytes s = some (line, rest)) (hv : validUtf8 line = true)
    (ht : (trimEndCrLf line).isEmpty = true) :
    readHeaders s acc = .ok (some (acc, rest)) := by
  unfold readHeaders
  rw [readHeadersF.eq_2, h]
  simp [hv, ht]

/-! ## Helper lemmas: the canonical header line -/

theorem natDigits_ne58 (n : Nat) : ∀ b ∈ natDigits n, b ≠ 58 := by
  intro b hb
  have := digit_bounds (natDigits_all_digit n b hb)
  omega

theorem natDigits_lt128 (n : Nat) : ∀ b ∈ natDigits n, b < 128 := by
  intro b hb
  have := digit_bounds (natDigits_all_digit n b hb)
  omega

theorem fsUpdAcc_header {n : Nat} (h : n < 2 ^ 64) (acc : Option Nat) :
    fsUpdAcc (strBytes "Content-Length: " ++ natDigits n) acc = some n := by
  have hlow : lowerBytes (strBytes "Content-Length: " ++ natDigits n)
      = strBytes "content-length: " ++ natDigits n := by
    have h1 : lowerBytes (strBytes "Content-Length: ") = strBytes "content-length: " := by decide
    have h2 := lowerBytes_digits (natDigits_all_digit n)
    simp only [lowerBytes] at h1 h2 ⊢
    rw [List.map_append, h1, h2]
  have hpre : (strBytes "content-length:").isPrefixOf
      (strBytes "content-length: " ++ natDigits n) = true := by
    rw [ List.isPrefixOf_iff_prefix]
    have : strBytes "content-length: " = strBytes "content-length:" ++ [32] := by decide
    rw [this, List.append_assoc]
    exact List.prefix_append _ _
  have hsplit : splitOn58 (strBytes "Content-Length: " ++ natDigits n)
      = [strBytes "Content-Length", 32 :: natDigits n] := by
    have : strBytes "Content-Length: " ++ natDigits n
        = strBytes "Content-Length" ++ 58 :: (32 :: natDigits n) := by
      have : strBytes "Content-Length: " = strBytes "Content-Length" ++ [58, 32] := by decide
      rw [this]
      simp
    rw [this]
    apply splitOn58_append
    · decide
    · intro b hb
      rcases List.mem_cons.mp hb with rfl | hb2
      · omega
      · exact natDigits_ne58 n b hb2
  rw [fsUpdAcc, hlow, if_pos hpre, hsplit]
  simp only [List.get?, Option.some_bind]
  rw [trimWs_space_digits (natDigits_ne_nil n) (natDigits_all_digit n)]
  exact parseUsize_natDigits h

/-! ## Helper lemmas: frame round trip -/

theorem hdr_no10 (n : Nat) : 10 ∉ strBytes "Content-Length: " ++ natDigits n ++ [13] := by
  intro hmem
  rcases List.mem_append.mp hmem with h1 | h2
  · rcases List.mem_append.mp h1 with h3 | h4
    · have hno : (10 : Nat) ∉ strBytes "Content-Length: " := by decide
      exact hno h3
    · have := digit_bounds (natDigits_all_digit n 10 h4)
      omega
  · simp at h2

theorem hdrline_ascii (n : Nat) :
    ∀ b ∈ (strBytes "Content-Length: " ++ natDigits n ++ [13]) ++ [10], b < 128 := by
  intro b hb
  rcases List.mem_append.mp hb with h1 | h2
  · rcases List.mem_append.mp h1 with h3 | h4
    · rcases List.mem_append.mp h3 with h5 | h6
      · have hall : ∀ x ∈ strBytes "Content-Length: ", x < 128 := by decide
        exact hall b h5
      · exact natDigits_lt128 n b h6
    · simp at h4; omega
  · simp at h2; omega

theorem trimEnd_hdrline (n : Nat) :
    trimEndCrLf ((strBytes "Content-Length: " ++ natDigits n ++ [13]) ++ [10])
      = strBytes "Content-Length: " ++ natDigits n := by
  obtain ⟨dl, db, hsplit, hlo, hhi⟩ := natDigits_split n
  have e : (strBytes "Content-Length: " ++ natDigits n ++ [13]) ++ [10]
      = ((strBytes "Content-Length: " ++ dl) ++ [db]) ++ [13, 10] := by
    rw [hsplit]
    simp
  rw [e, trimEndCrLf_concat (by omega) (by omega), hsplit]
  simp

theorem readMessageSync_writeMessageSync (msg rest : List Nat)
    (hv : validUtf8 msg = true) (hlen : msg.length < 2 ^ 64) :
    readMessageSync (writeMessageSync msg ++ rest) = .ok (some (msg, rest)) := by
  have e1 : writeMessageSync msg ++ rest
      = (strBytes "Content-Length: " ++ natDigits msg.length ++ [13])
        ++ 10 :: (13 :: 10 :: (msg ++ rest)) := by
    simp [writeMessageSync]
  have hline1 := readLineBytes_append (l := strBytes "Content-Length: " ++ natDigits msg.length ++ [13])
    (13 :: 10 :: (msg ++ rest)) (hdr_no10 msg.length)
  have hv1 : validUtf8 ((strBytes "Content-Length: " ++ natDigits msg.length ++ [13]) ++ [10]) = true :=
    validUtf8_ascii (hdrline_ascii msg.length)
  have ht1 : (trimEndCrLf ((strBytes "Content-Length: " ++ natDigits msg.length ++ [13]) ++ [10])).isEmpty = false := by
    rw [trimEnd_hdrline]
    cases hh : strBytes "Content-Length: " ++ natDigits msg.length with
    | nil => exact absurd hh (by simp [strBytes])
    | cons a l => simp
  have hstep1 : readHeaders (writeMessageSync msg ++ rest) none
      = readHeaders (13 :: 10 :: (msg ++ rest)) (some msg.length) := by
    rw [e1, readHeaders_step hline1 hv1 ht1, trimEnd_hdrline, fsUpdAcc_header hlen]
  have hline2 : readLineBytes (13 :: 10 :: (msg ++ rest)) = some ([13, 10], msg ++ rest) := by
    have := readLineBytes_append (l := [13]) (msg ++ rest) (by decide)
    simpa using this
  have hstep2 : readHeaders (13 :: 10 :: (msg ++ rest)) (some msg.length)
      = .ok (some (some msg.length, msg ++ rest)) :=
    readHeaders_blank hline2 (by decide) (by decide)
  have hre : readExact msg.length (msg ++ rest) = some (msg, rest) := by
    rw [readExact, if_neg (by simp)]
    simp
  rw [readMessageSync, hstep1, hstep2]
  simp [hre, hv]

/-! ## Helper lemmas: identifier wrap-around -/

theorem wrapI64_eq_of_range {x : Int} (h1 : -(2 ^ 63) ≤ x) (h2 : x < 2 ^ 63) :
    wrapI64 x = x := by
  unfold wrapI64
  omega

theorem nthId_closed : ∀ k : Nat, nthId k = wrapI64 (1 + k) := by
  intro k
  induction k with
  | zero =>
    show (1 : Int) = wrapI64 (1 + (0 : Nat))
    rw [wrapI64_eq_of_range (by norm_num) (by norm_num)]
    norm_num
  | succ k ih =>
    show wrapI64 (nthId k + 1) = wrapI64 (1 + ((k : Int) + 1))
    rw [ih]
    unfold wrapI64
    omega

/-! ## Helper lemmas: pending-table bookkeeping -/

theorem keysOf_map_keep {t : PendingTable} {f : Int × Bool → Int × Bool}
    (hf : ∀ e ∈ t, (f e).1 = e.1) : keysOf (t.map f) = keysOf t := by
  induction t with
  | nil => rfl
  | cons e tl ih =>
    simp only [keysOf, List.map_map, List.map_cons] at *
    rw [hf e (by simp)]
    have := ih (fun x hx => hf x (by simp [hx]))
    simp only [Function.comp] at this ⊢
    rw [this]

theorem keysOf_tableInsert_nodup {id : Int} {v : Bool} {t : PendingTable}
    (h : (keysOf t).Nodup) : (keysOf (tableInsert id v t)).Nodup := by
  unfold tableInsert
  by_cases hmem : t.any (fun e => e.1 == id) = true
  · rw [if_pos hmem]
    have : keysOf (t.map (fun e => if e.1 == id then (id, v) else e)) = keysOf t := by
      apply keysOf_map_keep
      intro e he
      by_cases hb : (e.1 == id) = true
      · simp [hb]
        exact (beq_iff_eq.mp hb).symm
      · simp only [Bool.not_eq_true] at hb
        simp [hb]
    rw [this]
    exact h
  · rw [if_neg hmem]
    have hid : id ∉ keysOf t := by
      intro hk
      simp only [keysOf, List.mem_map] at hk
      obtain ⟨e, he, hfst⟩ := hk
      simp only [List.any_eq_true, not_exists, not_and] at hmem
      have : ∀ e ∈ t, (e.1 == id) = false := by
        intro x hx
        by_contra hb
        simp only [Bool.not_eq_false] at hb
        exact hmem x hx hb
      have := this e he
      rw [hfst] at this
      simp at this
    simp only [keysOf, List.map_append, List.map_cons, List.map_nil]
    rw [List.nodup_append]
    refine ⟨h, by simp, ?_⟩
    intro a ha hb
    simp only [List.mem_singleton] at hb
    subst hb
    exact hid ha

theorem keysOf_tableRemove_nodup {id : Int} {t : PendingTable}
    (h : (keysOf t).Nodup) : (keysOf (tableRemove id t)).Nodup := by
  have hsub : List.Sublist ((tableRemove id t).map Prod.fst) (t.map Prod.fst) :=
    List.Sublist.map Prod.fst (List.filter_sublist t)
  exact h.sublist hsub

theorem keysOf_markDead_nodup {id : Int} {t : PendingTable}
    (h : (keysOf t).Nodup) : (keysOf (markDead id t)).Nodup := by
  unfold markDead
  have : keysOf (t.map (fun e => if e.1 == id then (e.1, false) else e)) = keysOf t := by
    apply keysOf_map_keep
    intro e he
    by_cases hb : (e.1 == id) = true
    · simp [hb]
    · simp only [Bool.not_eq_true] at hb
      simp [hb]
  rw [this]
  exact h

theorem find?_append_hit {id : Int} {v : Bool} {t : PendingTable}
    (h : ∀ e ∈ t, (e.1 == id) = false) :
    (t ++ [(id, v)]).find? (fun e => e.1 == id) = some (id, v) := by
  induction t with
  | nil => simp [List.find?]
  | cons e tl ih =>
    have he := h e (by simp)
    simp only [List.cons_append, List.find?, he]
    exact ih (fun x hx => h x (by simp [hx]))

theorem find?_map_hit {id : Int} {v : Bool} {t : PendingTable}
    (h : t.any (fun e => e.1 == id) = true) :
    ((t.map (fun e => if e.1 == id then (id, v) else e)).find? (fun e => e.1 == id)) = some (id, v) := by
  induction t with
  | nil => simp at h
  | cons e tl ih =>
    by_cases hb : (e.1 == id) = true
    · simp only [List.map_cons, if_pos hb, List.find?]
      have : ((id, v).1 == id) = true := by simp
      rw [this]
    · simp only [Bool.not_eq_true] at hb
      simp only [List.any_cons, hb, Bool.false_or] at h
      simp only [List.map_cons]
      rw [if_neg (by simp [hb])]
      simp only [List.find?, hb]
      exact ih h

theorem lookupTable_tableInsert (id : Int) (v : Bool) (t : PendingTable) :
    lookupTable id (tableInsert id v t) = some v := by
  unfold lookupTable tableInsert
  by_cases hmem : t.any (fun e => e.1 == id) = true
  · rw [if_pos hmem, find?_map_hit hmem]
    rfl
  · rw [if_neg hmem]
    have hall : ∀ e ∈ t, (e.1 == id) = false := by
      intro x hx
      by_contra hb
      simp only [Bool.not_eq_false] at hb
      simp only [List.any_eq_true, not_exists, not_and] at hmem
      exact hmem x hx hb
    rw [find?_append_hit hall]
    rfl

/-! ## Helper lemmas: root discovery -/

theorem upChain_len_le : ∀ rev : List String, ∀ r ∈ rev.tails.map List.reverse,
    r.length ≤ rev.length := by
  intro rev
  induction rev with
  | nil =>
    intro r hr
    simp [List.tails] at hr
    simp [hr]
  | cons x rv ih =>
    intro r hr
    rw [show (x :: rv).tails = (x :: rv) :: rv.tails by simp [List.tails]] at hr
    simp only [List.map_cons, List.mem_cons] at hr
    rcases hr with rfl | hr
    · simp
    · have := ih r hr
      simp
      omega

theorem frr_sound {fs : FsModel} : ∀ {rev r : List String},
    findRootFromRev fs rev = some r →
    hasMarker fs r = true ∧ r ∈ rev.tails.map List.reverse ∧
      ∀ r2 ∈ rev.tails.map List.reverse, r.length < r2.length → hasMarker fs r2 = false := by
  intro rev
  induction rev with
  | nil =>
    intro r h
    by_cases hm : hasMarker fs [] = true
    · simp only [findRootFromRev, hm, if_true, Option.some_inj] at h
      subst h
      refine ⟨hm, by simp [List.tails], ?_⟩
      intro r2 hr2 hlen
      simp [List.tails] at hr2
      simp [hr2] at hlen
    · simp only [Bool.not_eq_true] at hm
      simp [findRootFromRev, hm] at h
  | cons x rv ih =>
    intro r h
    have htails : (x :: rv).tails.map List.reverse
        = (x :: rv).reverse :: rv.tails.map List.reverse := by
      simp [List.tails]
    by_cases hm : hasMarker fs ((x :: rv).reverse) = true
    · simp only [findRootFromRev, hm, if_true, Option.some_inj] at h
      subst h
      refine ⟨hm, by rw [htails]; simp, ?_⟩
      intro r2 hr2 hlen
      rw [htails] at hr2
      rcases List.mem_cons.mp hr2 with rfl | hr2
      · omega
      · have := upChain_len_le rv r2 hr2
        simp at hlen
        omega
    · simp only [Bool.not_eq_true] at hm
      simp only [findRootFromRev, hm, Bool.false_eq_true, if_false] at h
      obtain ⟨h1, h2, h3⟩ := ih h
      refine ⟨h1, by rw [htails]; simp [h2], ?_⟩
      intro r2 hr2 hlen
      rw [htails] at hr2
      rcases List.mem_cons.mp hr2 with rfl | hr2
      · exact hm
      · exact h3 r2 hr2 hlen

theorem frr_none {fs : FsModel} : ∀ {rev : List String},
    (∀ r2 ∈ rev.tails.map List.reverse, hasMarker fs r2 = false) →
    findRootFromRev fs rev = none := by
  intro rev
  induction rev with
  | nil =>
    intro h
    have := h [] (by simp [List.tails])
    simp [findRootFromRev, this]
  | cons x rv ih =>
    intro h
    have htails : (x :: rv).tails.map List.reverse
        = (x :: rv).reverse :: rv.tails.map List.reverse := by
      simp [List.tails]
    have hm := h ((x :: rv).reverse) (by rw [htails]; simp)
    simp only [findRootFromRev, hm, Bool.false_eq_true, if_false]
    apply ih
    intro r2 hr2
    exact h r2 (by rw [htails]; simp [hr2])

theorem frr_complete {fs : FsModel} : ∀ {rev r2 : List String},
    r2 ∈ rev.tails.map List.reverse → hasMarker fs r2 = true →
    (findRootFromRev fs rev).isSome = true := by
  intro rev
  induction rev with
  | nil =>
    intro r2 hr2 hm
    simp [List.tails] at hr2
    subst hr2
    simp [findRootFromRev, hm]
  | cons x rv ih =>
    intro r2 hr2 hm
    have htails : (x :: rv).tails.map List.reverse
        = (x :: rv).reverse :: rv.tails.map List.reverse := by
      simp [List.tails]
    by_cases hfull : hasMarker fs ((x :: rv).reverse) = true
    · have hfull2 : hasMarker fs (rv.reverse ++ [x]) = true := by simpa using hfull
      simp [findRootFromRev, hfull2]
    · simp only [Bool.not_eq_true] at hfull
      simp only [findRootFromRev, hfull, Bool.false_eq_true, if_false]
      rw [htails] at hr2
      rcases List.mem_cons.mp hr2 with rfl | hr2
      · rw [hm] at hfull
        simp at hfull
      · exact ih hr2 hm

/-! ## Helper lemmas: the fueled loops satisfy the fuel-free recurrences -/

theorem readHeaders_eq (s : List Nat) (acc : Option Nat) :
    readHeaders s acc =
      match readLineBytes s with
      | none => .ok none
      | some (line, rest) =>
        if validUtf8 line then
          if (trimEndCrLf line).isEmpty then .ok (some (acc, rest))
          else readHeaders rest (fsUpdAcc (trimEndCrLf line) acc)
        else .error .invalidData := by
  cases hr : readLineBytes s with
  | none =>
    unfold readHeaders
    rw [readHeadersF.eq_2, hr]
  | some lr =>
    cases lr with
    | mk line rest =>
      by_cases hv : validUtf8 line = true
      · by_cases ht : (trimEndCrLf line).isEmpty = true
        · rw [readHeaders_blank hr hv ht]
          simp [hv, ht]
        · simp only [Bool.not_eq_true] at ht
          rw [readHeaders_step hr hv ht]
          simp [hv, ht]
      · simp only [Bool.not_eq_true] at hv
        unfold readHeaders
        rw [readHeadersF.eq_2, hr]
        simp [hv]

theorem readerHeadersF_irrel : ∀ f1 : Nat, ∀ {f2 : Nat} {s : List Nat} {acc : Option Nat},
    s.length < f1 → s.length < f2 → readerHeadersF f1 s acc = readerHeadersF f2 s acc := by
  intro f1
  induction f1 with
  | zero => intro f2 s acc h1 _; exact absurd h1 (by omega)
  | succ f ih =>
    intro f2 s acc h1 h2
    cases f2 with
    | zero => exact absurd h2 (by omega)
    | succ g =>
      rw [readerHeadersF.eq_2, readerHeadersF.eq_2]
      cases hr : readLineBytes s with
      | none => rfl
      | some lr =>
        cases lr with
        | mk line rest =>
          have hlt := readLineBytes_shrink hr
          by_cases hv : validUtf8 line = true
          · simp only [hv, if_pos]
            by_cases ht : line = [13, 10] ∨ line = [10]
            · simp [ht]
            · simp only [if_neg ht]
              exact ih (by omega) (by omega)
          · simp only [Bool.not_eq_true] at hv
            simp [hv]

theorem readerHeaders_eq (s : List Nat) (acc : Option Nat) :
    readerHeaders s acc =
      match readLineBytes s with
      | none => none
      | some (line, rest) =>
        if validUtf8 line then
          if line = [13, 10] ∨ line = [10] then some (acc, rest)
          else readerHeaders rest (rdrUpdAcc line acc)
        else none := by
  cases hr : readLineBytes s with
  | none =>
    unfold readerHeaders
    rw [readerHeadersF.eq_2, hr]
  | some lr =>
    cases lr with
    | mk line rest =>
      have hlt := readLineBytes_shrink hr
      unfold readerHeaders
      rw [readerHeadersF.eq_2, hr]
      by_cases hv : validUtf8 line = true
      · simp only [hv, if_pos]
        by_cases ht : line = [13, 10] ∨ line = [10]
        · simp [ht]
        · simp only [if_neg ht]
          exact readerHeadersF_irrel _ (by omega) (by omega)
      · simp only [Bool.not_eq_true] at hv
        simp [hv]

/-! ## Helper lemmas: message traces of the client operations -/

theorem sendRequest_trace (st : ClientState) (env : SendEnv) (m : String) :
    (sendRequest st env m).2.2 = [] ∨
    (sendRequest st env m).2.2 = [(Msg.req st.nextId m, st.initialized)] := by
  unfold sendRequest
  by_cases h1 : st.stdinOpen = true
  · by_cases h2 : env.writeOk = true
    · cases ho : env.outcome st.nextId with
      | noArrival => simp [h1, h2, ho]
      | arrival t rsp =>
        by_cases h3 : t < requestTimeoutMs
        · simp [h1, h2, ho, h3]
        · simp [h1, h2, ho, h3]
    · simp only [Bool.not_eq_true] at h2
      simp [h1, h2]
  · simp only [Bool.not_eq_true] at h1
    simp [h1]

theorem sendRequest_initialized (st : ClientState) (env : SendEnv) (m : String) :
    (sendRequest st env m).2.1.initialized = st.initialized := by
  unfold sendRequest
  by_cases h1 : st.stdinOpen = true
  · by_cases h2 : env.writeOk = true
    · cases ho : env.outcome st.nextId with
      | noArrival => simp [h1, h2, ho]
      | arrival t rsp =>
        by_cases h3 : t < requestTimeoutMs
        · simp [h1, h2, ho, h3]
        · simp [h1, h2, ho, h3]
    · simp only [Bool.not_eq_true] at h2
      simp [h1, h2]
  · simp only [Bool.not_eq_true] at h1
    simp [h1]

theorem sendNotify_state (st : ClientState) (env : SendEnv) (m : String) :
    (sendNotify st env m).1 = st := by
  unfold sendNotify
  by_cases h : st.stdinOpen = true
  · simp [h]
  · simp only [Bool.not_eq_true] at h
    simp [h]

theorem sendNotify_trace (st : ClientState) (env : SendEnv) (m : String) :
    ∀ x ∈ (sendNotify st env m).2, x = (Msg.notif m, st.initialized) := by
  unfold sendNotify
  by_cases h : st.stdinOpen = true
  · simp [h]
  · simp only [Bool.not_eq_true] at h
    simp [h]

theorem initializeTr_reqs (st : ClientState) (env : SendEnv) (root : List String) :
    ∀ x ∈ (initializeTr st env root).2.2,
      isReqMsg x.1 = true → msgMethod x.1 = "initialize" := by
  intro x hx hreq
  simp only [initializeTr] at hx
  rcases hsr : sendRequest { st with rootUri := some root } env "initialize" with ⟨res, st1, tr1⟩
  rw [hsr] at hx
  have htr0 : tr1 = [] ∨ tr1 = [(Msg.req st.nextId "initialize", st.initialized)] := by
    have := sendRequest_trace { st with rootUri := some root } env "initialize"
    rw [hsr] at this
    simpa using this
  have htr1 : ∀ y ∈ tr1, msgMethod y.1 = "initialize" := by
    intro y hy
    rcases htr0 with rfl | rfl
    · simp at hy
    · simp only [List.mem_singleton] at hy
      subst hy
      rfl
  cases res with
  | error e =>
    simp only at hx
    exact htr1 x hx
  | ok rsp =>
    by_cases herr : rsp.error.isSome = true
    · simp only [herr, if_true] at hx
      exact htr1 x hx
    · simp only [Bool.not_eq_true] at herr
      simp only [herr, Bool.false_eq_true, if_false, List.mem_append] at hx
      rcases hx with hx | hx
      · exact htr1 x hx
      · have := sendNotify_trace st1 env "initialized" x hx
        rw [this] at hreq
        simp [isReqMsg] at hreq

theorem initializeTr_ok_initialized (st : ClientState) (env : SendEnv) (root : List String)
    {st2 : ClientState} {tr : List (Msg × Bool)}
    (h : (initializeTr st env root) = (.ok (), st2, tr)) : st2.initialized = true := by
  simp only [initializeTr] at h
  rcases hsr : sendRequest { st with rootUri := some root } env "initialize" with ⟨res, st1, tr1⟩
  rw [hsr] at h
  cases res with
  | error e => simp at h
  | ok rsp =>
    by_cases herr : rsp.error.isSome = true
    · simp [herr] at h
    · simp only [Bool.not_eq_true] at herr
      simp only [herr, Bool.false_eq_true, if_false, Prod.mk.injEq] at h
      rw [← h.2.1]

theorem ensureInitializedTr_reqs (st : ClientState) (env : SendEnv) (fs : FsModel) (p : List String) :
    ∀ x ∈ (ensureInitializedTr st env fs p).2.2,
      isReqMsg x.1 = true → msgMethod x.1 = "initialize" := by
  intro x hx hreq
  simp only [ensureInitializedTr] at hx
  by_cases hi : st.initialized = true
  · simp [hi] at hx
  · simp only [Bool.not_eq_true] at hi
    simp only [hi, Bool.false_eq_true, if_false] at hx
    exact initializeTr_reqs st env _ x hx hreq

theorem ensureInitializedTr_ok_initialized (st : ClientState) (env : SendEnv)
    (fs : FsModel) (p : List String) {st2 : ClientState} {tr : List (Msg × Bool)}
    (h : ensureInitializedTr st env fs p = (.ok (), st2, tr)) : st2.initialized = true := by
  simp only [ensureInitializedTr] at h
  by_cases hi : st.initialized = true
  · rw [if_pos hi] at h
    simp only [Prod.mk.injEq] at h
    rw [← h.2.1]
    exact hi
  · simp only [Bool.not_eq_true] at hi
    rw [if_neg (by simp [hi])] at h
    exact initializeTr_ok_initialized st env _ h

theorem openFileTr_state (st : ClientState) (env : SendEnv) (p : List String) :
    (openFileTr st env p).2.1 = st := by
  simp only [openFileTr]
  by_cases h : env.readFileOk = true
  · simp [h, sendNotify_state]
  · simp only [Bool.not_eq_true] at h
    simp [h]

theorem openFileTr_no_reqs (st : ClientState) (env : SendEnv) (p : List String) :
    ∀ x ∈ (openFileTr st env p).2.2, isReqMsg x.1 = false := by
  intro x hx
  simp only [openFileTr] at hx
  by_cases h : env.readFileOk = true
  · simp only [h, if_true] at hx
    have := sendNotify_trace st env "textDocument/didOpen" x hx
    rw [this]
    rfl
  · simp only [Bool.not_eq_true] at h
    simp [h] at hx

theorem requestOpTr_uninit_reqs (method : String) (st : ClientState) (env : SendEnv)
    (fs : FsModel) (p : List String) :
    ∀ x ∈ (requestOpTr method st env fs p).2.2,
      x.2 = false → isReqMsg x.1 = true → msgMethod x.1 = "initialize" := by
  intro x hx hflag hreq
  simp only [requestOpTr] at hx
  rcases hen : ensureInitializedTr st env fs p with ⟨r1, st1, tr1⟩
  rw [hen] at hx
  cases r1 with
  | error e =>
    simp only at hx
    exact ensureInitializedTr_reqs st env fs p x (by rw [hen]; exact hx) hreq
  | ok u =>
    cases u
    simp only at hx
    have hst1 : st1.initialized = true := ensureInitializedTr_ok_initialized st env fs p hen
    rcases hop : openFileTr st1 env p with ⟨r2, st2, tr2⟩
    rw [hop] at hx
    cases r2 with
    | error e =>
      simp only [List.mem_append] at hx
      rcases hx with hx | hx
      · exact ensureInitializedTr_reqs st env fs p x (by rw [hen]; exact hx) hreq
      · have := openFileTr_no_reqs st1 env p x (by rw [hop]; exact hx)
        rw [hreq] at this
        simp at this
    | ok u2 =>
      cases u2
      simp only at hx
      have hst2 : st2 = st1 := by
        have := openFileTr_state st1 env p
        rw [hop] at this
        exact this
      rcases hsr : sendRequest st2 env method with ⟨r3, st3, tr3⟩
      rw [hsr] at hx
      simp only [List.mem_append] at hx
      rcases hx with (hx | hx) | hx
      · exact ensureInitializedTr_reqs st env fs p x (by rw [hen]; exact hx) hreq
      · have := openFileTr_no_reqs st1 env p x (by rw [hop]; exact hx)
        rw [hreq] at this
        simp at this
      · have htr3 : tr3 = [] ∨ tr3 = [(Msg.req st2.nextId method, st2.initialized)] := by
          have := sendRequest_trace st2 env method
          rw [hsr] at this
          simpa using this
        rcases htr3 with rfl | rfl
        · simp at hx
        · simp only [List.mem_singleton] at hx
          subst hx
          simp only at hflag
          rw [hst2, hst1] at hflag
          simp at hflag

theorem diagnosticsTr_uninit_reqs (st : ClientState) (env : SendEnv)
    (fs : FsModel) (p : List String) :
    ∀ x ∈ (diagnosticsTr st env fs p).2.2,
      x.2 = false → isReqMsg x.1 = true → msgMethod x.1 = "initialize" := by
  intro x hx hflag hreq
  simp only [diagnosticsTr] at hx
  rcases hen : ensureInitializedTr st env fs p with ⟨r1, st1, tr1⟩
  rw [hen] at hx
  cases r1 with
  | error e =>
    simp only at hx
    exact ensureInitializedTr_reqs st env fs p x (by rw [hen]; exact hx) hreq
  | ok u =>
    cases u
    simp only at hx
    rcases hop : openFileTr st1 env p with ⟨r2, st2, tr2⟩
    rw [hop] at hx
    cases r2 with
    | error e =>
      simp only [List.mem_append] at hx
      rcases hx with hx | hx
      · exact ensureInitializedTr_reqs st env fs p x (by rw [hen]; exact hx) hreq
      · have := openFileTr_no_reqs st1 env p x (by rw [hop]; exact hx)
        rw [hreq] at this
        simp at this
    | ok u2 =>
      cases u2
      simp only [List.mem_append] at hx
      rcases hx with hx | hx
      · exact ensureInitializedTr_reqs st env fs p x (by rw [hen]; exact hx) hreq
      · have := openFileTr_no_reqs st1 env p x (by rw [hop]; exact hx)
        rw [hreq] at this
        simp at this

/-! ## Claim theorems -/

/-- C2: for every byte sequence b in the domain of write_message_sync (a Rust
&str, i.e. a valid UTF-8 sequence of fewer than 2^64 bytes — including the
empty sequence and sequences with embedded null or newline bytes), reading a
frame from a stream to which writeFrame(b) was written reconstructs b exactly
and consumes nothing further. -/
theorem c2_framing_round_trip (b rest : List Nat)
    (hv : validUtf8 b = true) (hlen : b.length < 2 ^ 64) :
    readMessageSync (writeMessageSync b ++ rest) = .ok (some (b, rest)) :=
  readMessageSync_writeMessageSync b rest hv hlen

theorem c2_framing_round_trip_witness :
    validUtf8 [0, 10] = true ∧ [0, 10].length < 2 ^ 64 ∧
      readMessageSync (writeMessageSync [0, 10] ++ [7]) = .ok (some ([0, 10], [7])) :=
  ⟨by decide, by decide, c2_framing_round_trip [0, 10] [7] (by decide) (by decide)⟩

/-- C10: whenever the headers of a frame declare a length, the declared
number of body bytes is read successfully, and those bytes are not valid
UTF-8, read_message_sync returns the InvalidData error — not the
end-of-stream signal (ok none) and not a skip — so only valid UTF-8 bodies
reach the caller. -/
theorem c10_invalid_utf8_body (s rest body rest2 : List Nat) (len : Nat)
    (hh : readHeaders s none = .ok (some (some len, rest)))
    (hb : readExact len rest = some (body, rest2))
    (hv : validUtf8 body = false) :
    readMessageSync s = .error .invalidData := by
  unfold readMessageSync
  rw [hh]
  simp [hb, hv]

theorem c10_invalid_utf8_body_witness :
    readHeaders (strBytes "Content-Length: 1" ++ [13, 10, 13, 10, 255]) none
        = .ok (some (some 1, [255])) ∧
      readExact 1 [255] = some ([255], []) ∧
      validUtf8 [255] = false ∧
      readMessageSync (strBytes "Content-Length: 1" ++ [13, 10, 13, 10, 255])
        = .error .invalidData :=
  ⟨by rfl, by rfl, by rfl,
    c10_invalid_utf8_body _ [255] [255] [] 1 (by rfl) (by rfl) (by rfl)⟩

/-- C1 (code bug): when no response arrives within the timeout, send_request
returns the RequestTimedOut error but the pending entry for the request
identifier is still in the correlation table immediately after the call
returns (the code never removes it on the timeout path; it is removed only
if a late response arrives, at which point the response is dropped because
the receiver is gone — the third conjunct). -/
theorem c1_timeout_entry_remains :
    (sendRequest ⟨[], 1, true, true, true, none⟩
        ⟨true, fun _ => .noArrival, true⟩ "textDocument/hover").1
      = .error .requestTimedOut ∧
    (sendRequest ⟨[], 1, true, true, true, none⟩
        ⟨true, fun _ => .noArrival, true⟩ "textDocument/hover").2.1.pending
      = [(1, false)] ∧
    deliverById 1 [(1, false)] = ([], false) :=
  ⟨rfl, rfl, rfl⟩

/-- C3 (code bug): the wait in send_request is the fixed 30 second constant,
not the timeout of the Backend Configuration: with a backend configured with
timeout_ms = 5000, a response arriving 10000 ms after the send is still
delivered successfully. -/
theorem c3_timeout_ignores_config :
    (⟨"rust-analyzer", [], [".rs"], [], 5000⟩ : ServerConfig).timeoutMs = 5000 ∧
    requestTimeoutMs = 30000 ∧
    (sendRequest ⟨[], 1, true, true, true, none⟩
        ⟨true, fun _ => .arrival 10000 ⟨some 1, some .null, none⟩, true⟩
        "textDocument/hover").1
      = .ok ⟨some 1, some .null, none⟩ :=
  ⟨rfl, rfl, rfl⟩

/-- C9: send_request inserts the pending entry before attempting the write;
when no backend is running (stdin absent) or when the write fails, the call
returns the corresponding error and the just-inserted entry is still in the
correlation table. -/
theorem c9_insert_before_write (st : ClientState) (env : SendEnv) (m : String) :
    (st.stdinOpen = false →
      (sendRequest st env m).1 = .error .notRunning ∧
        lookupTable st.nextId (sendRequest st env m).2.1.pending = some true) ∧
    (st.stdinOpen = true → env.writeOk = false →
      (sendRequest st env m).1 = .error .writeFailed ∧
        lookupTable st.nextId (sendRequest st env m).2.1.pending = some true) := by
  constructor
  · intro h
    refine ⟨?_, ?_⟩
    · unfold sendRequest
      rw [h]
      simp
    · unfold sendRequest
      rw [h]
      simp only [Bool.not_false, if_true]
      exact lookupTable_tableInsert st.nextId true st.pending
  · intro h1 h2
    refine ⟨?_, ?_⟩
    · unfold sendRequest
      rw [h1, h2]
      simp
    · unfold sendRequest
      rw [h1, h2]
      simp only [Bool.not_true, Bool.false_eq_true, if_false, Bool.not_false, if_true]
      exact lookupTable_tableInsert st.nextId true st.pending

theorem c9_insert_before_write_witness :
    (⟨[], 1, false, false, false, none⟩ : ClientState).stdinOpen = false ∧
      ((sendRequest ⟨[], 1, false, false, false, none⟩
          ⟨true, fun _ => .noArrival, true⟩ "initialize").1 = .error .notRunning ∧
        lookupTable 1 (sendRequest ⟨[], 1, false, false, false, none⟩
          ⟨true, fun _ => .noArrival, true⟩ "initialize").2.1.pending = some true) :=
  ⟨rfl, (c9_insert_before_write ⟨[], 1, false, false, false, none⟩
    ⟨true, fun _ => .noArrival, true⟩ "initialize").1 rfl⟩

/-- C6 counterexample: the identifier counter is an i64 updated with the
wrapping fetch_add, so the claim of pairwise-distinct, strictly increasing,
never reused identifiers fails at concrete allocation indices: allocation
2^64 returns the same identifier as allocation 0, and allocation 2^63 - 1
returns a smaller identifier than allocation 2^63 - 2. -/
theorem c6_id_wraparound_counterexample :
    nthId (2 ^ 64) = nthId 0 ∧ nthId (2 ^ 63 - 1) < nthId (2 ^ 63 - 2) := by
  constructor
  · rw [nthId_closed, nthId_closed]
    decide
  · rw [nthId_closed, nthId_closed]
    decide

/-- C6 amended: for any run of allocations staying within the i64 range
(at most 2^63 - 1 of them, far beyond any real process lifetime), the
returned identifiers are strictly increasing, hence pairwise distinct;
and the correlation table operations preserve key uniqueness, so the table
never contains two entries with the same identifier. -/
theorem c6_ids_distinct_amended :
    (∀ j k : Nat, j < k → k ≤ 2 ^ 63 - 2 → nthId j < nthId k) ∧
    (∀ (id : Int) (v : Bool) (t : PendingTable), (keysOf t).Nodup →
      (keysOf (tableInsert id v t)).Nodup ∧ (keysOf (tableRemove id t)).Nodup ∧
        (keysOf (markDead id t)).Nodup) := by
  constructor
  · intro j k hjk hk
    rw [nthId_closed, nthId_closed]
    rw [wrapI64_eq_of_range (by omega) (by omega), wrapI64_eq_of_range (by omega) (by omega)]
    omega
  · intro id v t h
    exact ⟨keysOf_tableInsert_nodup h, keysOf_tableRemove_nodup h, keysOf_markDead_nodup h⟩

theorem c6_ids_distinct_amended_witness :
    (0 : Nat) < 1 ∧ (1 : Nat) ≤ 2 ^ 63 - 2 ∧ nthId 0 < nthId 1 ∧
      (keysOf []).Nodup ∧ (keysOf (tableInsert 1 true [])).Nodup :=
  ⟨by decide, by decide, c6_ids_distinct_amended.1 0 1 (by decide) (by decide),
    List.nodup_nil, (c6_ids_distinct_amended.2 1 true [] List.nodup_nil).1⟩

/-- C5: root discovery walks upward from the parent directory of the file;
when it returns a directory, that directory is on the walk, contains one of
the fixed markers, and every strictly closer (longer) directory on the walk
contains none (nearest ancestor wins); when no directory on the walk has a
marker it returns none and ensure_initialized falls back to the parent of
the file; and when some directory on the walk has a marker the discovery
succeeds. -/
theorem c5_root_discovery (fs : FsModel) (p : List String) (hp : p ≠ []) :
    (∀ r, findProjectRoot fs p = some r →
      hasMarker fs r = true ∧ r ∈ upChain p.dropLast ∧
        ∀ r2 ∈ upChain p.dropLast, r.length < r2.length → hasMarker fs r2 = false) ∧
    ((∀ r2 ∈ upChain p.dropLast, hasMarker fs r2 = false) →
      findProjectRoot fs p = none ∧ rootFor fs p = p.dropLast) ∧
    (∀ r2 ∈ upChain p.dropLast, hasMarker fs r2 = true →
      (findProjectRoot fs p).isSome = true) := by
  cases p with
  | nil => exact absurd rfl hp
  | cons x xs =>
    refine ⟨?_, ?_, ?_⟩
    · intro r h
      exact frr_sound h
    · intro hall
      have h1 := @frr_none fs ((x :: xs).dropLast.reverse) hall
      refine ⟨h1, ?_⟩
      unfold rootFor
      have : findProjectRoot fs (x :: xs) = none := h1
      rw [this]
      rfl
    · intro r2 hr2 hm
      exact frr_complete hr2 hm

theorem c5_root_discovery_witness :
    (["proj", "src", "pkg", "file.ext"] : List String) ≠ [] ∧
      findProjectRoot [["proj", ".git"]] ["proj", "src", "pkg", "file.ext"] = some ["proj"] ∧
      (findProjectRoot [["proj", ".git"]] ["proj", "src", "pkg", "file.ext"]).isSome = true :=
  ⟨by decide, by rfl,
    (c5_root_discovery [["proj", ".git"]] ["proj", "src", "pkg", "file.ext"]
      (by decide)).2.2 ["proj"] (by decide) (by decide)⟩

/-- C7: when the extension of a file matches no configured backend (case
insensitively, including files with no extractable extension), get_client
fails with NoBackendConfigured, the client cache is unchanged, and no
process is spawned. -/
theorem c7_no_backend_configured (cfg : Config) (clients : List String)
    (p : List String) (spawnOk : Bool) (h : matchesNoBackend cfg p = true) :
    getClient cfg clients p spawnOk = (.error .noBackendConfigured, clients, []) := by
  have hs : serverForFile cfg p = none := by
    unfold serverForFile
    unfold matchesNoBackend at h
    cases he : extensionOf p with
    | none => rfl
    | some ext =>
      rw [he] at h
      unfold serverForExtension
      rw [List.find?_eq_none]
      intro nc hnc
      simp only [List.all_eq_true] at h
      have h1 := h nc hnc
      simp only [Bool.not_eq_true]
      rw [List.any_eq_false]
      intro e hee
      have h2 := h1 e hee
      simp only [Bool.not_eq_true'] at h2
      exact fun hb => by rw [h2] at hb; exact Bool.false_ne_true hb
  unfold getClient
  rw [hs]

theorem c7_no_backend_configured_witness :
    matchesNoBackend ⟨[("rust", ⟨"rust-analyzer", [], [".rs"], [], 30000⟩)]⟩
        ["dir", "file.unknownext"] = true ∧
      getClient ⟨[("rust", ⟨"rust-analyzer", [], [".rs"], [], 30000⟩)]⟩ []
        ["dir", "file.unknownext"] true = (.error .noBackendConfigured, [], []) :=
  ⟨by decide,
    c7_no_backend_configured ⟨[("rust", ⟨"rust-analyzer", [], [".rs"], [], 30000⟩)]⟩ []
      ["dir", "file.unknownext"] true (by decide)⟩

/-- C8: per frame, the reader loop discards bodies that fail to decode as a
response envelope and responses with no or unknown identifiers and keeps
reading with the pending table unchanged; an iteration ends the loop only
when the header read reaches end of stream or fails, or the declared body
length cannot be read. -/
theorem c8_reader_loop (decode : List Nat → Option JsonRpcResponse)
    (s : List Nat) (t : PendingTable) :
    (∀ len rest body rest2, readerHeaders s none = some (some len, rest) →
        readExact len rest = some (body, rest2) → decode body = none →
        readerStep decode s t = .step rest2 t none) ∧
    (∀ len rest body rest2 rsp, readerHeaders s none = some (some len, rest) →
        readExact len rest = some (body, rest2) → decode body = some rsp →
        rsp.id = none → readerStep decode s t = .step rest2 t none) ∧
    (∀ len rest body rest2 rsp id, readerHeaders s none = some (some len, rest) →
        readExact len rest = some (body, rest2) → decode body = some rsp →
        rsp.id = some id → t.find? (fun e => e.1 == id) = none →
        readerStep decode s t = .step rest2 t (some (id, false))) ∧
    (∀ e, readerStep decode s t = .exit e →
        readerHeaders s none = none ∨
          ∃ len rest, readerHeaders s none = some (some len, rest) ∧
            readExact len rest = none) := by
  refine ⟨?_, ?_, ?_, ?_⟩
  · intro len rest body rest2 hh hb hd
    unfold readerStep
    rw [hh]
    simp [hb, hd]
  · intro len rest body rest2 rsp hh hb hd hid
    unfold readerStep
    rw [hh]
    simp [hb, hd, hid]
  · intro len rest body rest2 rsp id hh hb hd hid hfind
    unfold readerStep
    rw [hh]
    simp only [hb, hd, hid]
    unfold deliverById
    rw [hfind]
  · intro e he
    unfold readerStep at he
    cases hh : readerHeaders s none with
    | none => exact Or.inl rfl
    | some v =>
      obtain ⟨cl, rest⟩ := v
      rw [hh] at he
      cases cl with
      | none => simp at he
      | some len =>
        cases hb : readExact len rest with
        | none => exact Or.inr ⟨len, rest, rfl, hb⟩
        | some br =>
          obtain ⟨body, rest2⟩ := br
          simp only [hb] at he
          cases hd : decode body with
          | none => simp [hd] at he
          | some rsp =>
            simp only [hd] at he
            cases hid : rsp.id with
            | none => simp [hid] at he
            | some id => simp [hid] at he

theorem c8_reader_loop_witness :
    readerHeaders (strBytes "Content-Length: 1" ++ [13, 10, 13, 10, 65]) none
        = some (some 1, [65]) ∧
      readExact 1 [65] = some ([65], []) ∧
      (fun (_ : List Nat) => (none : Option JsonRpcResponse)) [65] = none ∧
      readerStep (fun _ => none) (strBytes "Content-Length: 1" ++ [13, 10, 13, 10, 65]) []
        = .step [] [] none :=
  ⟨by rfl, by rfl, by rfl,
    (c8_reader_loop (fun _ => none) (strBytes "Content-Length: 1" ++ [13, 10, 13, 10, 65]) []).1
      1 [65] [65] [] (by rfl) (by rfl) (by rfl)⟩

/-- C4 counterexample: on a client that has never initialized, shutdown
sends the shutdown request without triggering initialization first — a
request other than initialize written while the initialized flag is false. -/
theorem c4_shutdown_uninitialized_counterexample :
    (⟨[], 1, false, true, true, none⟩ : ClientState).initialized = false ∧
      (Msg.req 1 "shutdown", false) ∈
        (shutdownTr ⟨[], 1, false, true, true, none⟩
          ⟨true, fun _ => .arrival 0 ⟨some 1, some .null, none⟩, true⟩).2 ∧
      msgMethod (Msg.req 1 "shutdown") ≠ "initialize" := by
  refine ⟨rfl, ?_, by decide⟩
  show (Msg.req 1 "shutdown", false) ∈
    [(Msg.req 1 "shutdown", false), (Msg.notif "exit", false)]
  simp

/-- C4 amended: every read operation (hover, definition, references,
document symbols, diagnostics) triggers initialization before sending any
other request: in any trace of these operations, a request written while the
initialized flag is false is the initialize request itself.  (Shutdown is
the exception the counterexample exhibits.) -/
theorem c4_read_ops_initialize_first (st : ClientState) (env : SendEnv)
    (fs : FsModel) (p : List String) :
    (∀ x ∈ (hoverTr st env fs p).2.2,
      x.2 = false → isReqMsg x.1 = true → msgMethod x.1 = "initialize") ∧
    (∀ x ∈ (definitionTr st env fs p).2.2,
      x.2 = false → isReqMsg x.1 = true → msgMethod x.1 = "initialize") ∧
    (∀ x ∈ (referencesTr st env fs p).2.2,
      x.2 = false → isReqMsg x.1 = true → msgMethod x.1 = "initialize") ∧
    (∀ x ∈ (documentSymbolsTr st env fs p).2.2,
      x.2 = false → isReqMsg x.1 = true → msgMethod x.1 = "initialize") ∧
    (∀ x ∈ (diagnosticsTr st env fs p).2.2,
      x.2 = false → isReqMsg x.1 = true → msgMethod x.1 = "initialize") :=
  ⟨requestOpTr_uninit_reqs "textDocument/hover" st env fs p,
    requestOpTr_uninit_reqs "textDocument/definition" st env fs p,
    requestOpTr_uninit_reqs "textDocument/references" st env fs p,
    requestOpTr_uninit_reqs "textDocument/documentSymbol" st env fs p,
    diagnosticsTr_uninit_reqs st env fs p⟩

theorem c4_read_ops_initialize_first_witness :
    ((Msg.req 1 "initialize", false) ∈
        (hoverTr ⟨[], 1, false, true, true, none⟩ ⟨true, fun _ => .noArrival, true⟩
          [] ["a", "b.rs"]).2.2) ∧
      msgMethod (Msg.req 1 "initialize") = "initialize" :=
  ⟨by decide,
    (c4_read_ops_initialize_first ⟨[], 1, false, true, true, none⟩
        ⟨true, fun _ => .noArrival, true⟩ [] ["a", "b.rs"]).1
      (Msg.req 1 "initialize", false) (by decide) rfl rfl⟩
